import Mathlib

/-
Verification of the string formatter in `format_util.h` (class `Formatter`).

Code-side definitions are shallow embeddings of the C++ member functions,
working over `List Char` in place of `std::basic_string<char>`:

* `FormatUtil.findFrom`     embeds `str.find(SUBSTITUTE_MASK, last_pos)`;
* `FormatUtil.formatLoop`   embeds the scan-and-substitute `while` loop of
                            `Formatter::Format` (format_util.h lines 70-87);
* `FormatUtil.Format`       embeds the variadic `Format` overload, taking the
                            already rendered argument strings (the C++ code
                            renders all arguments into `parameter_values`
                            before the scan starts, so the scan itself only
                            ever sees a list of strings);
* `FormatUtil.Format0`      embeds the zero-argument `Format` overload
                            (format_util.h lines 92-96).

Specification-side definitions (`specSubst`, `splitTemplate`, `fillSegs`, ...)
restate the documented substitution behaviour by direct recursion on the
template; the bridge theorems prove the scan loop equal to them.
-/

namespace FormatUtil

/-- Convert a string literal to the `List Char` representation used throughout. -/
def strL (s : String) : List Char := s.toList

/-- The format specifier `SUBSTITUTE_MASK = "%?"` (format_util.h line 217). -/
def SUBSTITUTE_MASK : List Char := ['%', '?']

/-- The two-character mask `"%?"` matches the template `s` at index `i`.
This is what `str.find(SUBSTITUTE_MASK, pos) == i` tests character-wise. -/
def isMaskAt (s : List Char) (i : Nat) : Prop :=
  s.get? i = some '%' ∧ s.get? (i + 1) = some '?'

instance (s : List Char) (i : Nat) : Decidable (isMaskAt s i) := by
  unfold isMaskAt; infer_instance

/-- Embedding of `str.find(SUBSTITUTE_MASK, start)`: the least index `p ≥ start`
at which the mask `"%?"` occurs in `s`, or `none` (C++ `npos`) if there is none. -/
def findFrom (s : List Char) (start : Nat) : Option Nat :=
  if _h : start + 1 < s.length then
    if isMaskAt s start then some start
    else findFrom s (start + 1)
  else none
termination_by s.length - start
decreasing_by omega

/-- Soundness of `findFrom`: a hit is in range, is a mask occurrence, is at or
after `start`, and is the first occurrence at or after `start`. -/
theorem findFrom_sound (s : List Char) (start p : Nat)
    (h : findFrom s start = some p) :
    start ≤ p ∧ p + 1 < s.length ∧ isMaskAt s p ∧
      ∀ j, start ≤ j → j < p → ¬ isMaskAt s j := by
  induction start using findFrom.induct s with
  | case1 start hlt hmask =>
    rw [findFrom, dif_pos hlt, if_pos hmask] at h
    cases h
    exact ⟨Nat.le_refl _, hlt, hmask, fun j h1 h2 => absurd h1 (by omega)⟩
  | case2 start hlt hmask ih =>
    rw [findFrom, dif_pos hlt, if_neg hmask] at h
    obtain ⟨ih1, ih2, ih3, ih4⟩ := ih h
    refine ⟨by omega, ih2, ih3, fun j h1 h2 => ?_⟩
    rcases Nat.eq_or_lt_of_le h1 with rfl | h1'
    · exact hmask
    · exact ih4 j h1' h2
  | case3 start hlt =>
    rw [findFrom, dif_neg hlt] at h
    cases h

/-- Completeness of a `findFrom` miss: no mask occurrence at or after `start`. -/
theorem findFrom_none (s : List Char) (start : Nat)
    (h : findFrom s start = none) :
    ∀ j, start ≤ j → ¬ isMaskAt s j := by
  induction start using findFrom.induct s with
  | case1 start hlt hmask =>
    rw [findFrom, dif_pos hlt, if_pos hmask] at h
    cases h
  | case2 start hlt hmask ih =>
    rw [findFrom, dif_pos hlt, if_neg hmask] at h
    intro j h1
    rcases Nat.eq_or_lt_of_le h1 with rfl | h1'
    · exact hmask
    · exact ih h j h1'
  | case3 start hlt =>
    intro j h1 hm
    obtain ⟨hlen, -⟩ := List.get?_eq_some.mp hm.2
    omega

/-- Embedding of the scan-and-substitute `while` loop of `Formatter::Format`
(format_util.h lines 70-87).  State: `lastPos` is `last_pos`, `k` is
`arg_counter`, `ps` is the `parameter_values` array of pre-rendered argument
strings.  Each iteration finds the next `"%?"`; if the character directly
before it is `'%'` the occurrence is screened and re-emitted literally with
the screening `'%'` dropped; otherwise the text since `last_pos` is emitted
followed by the next rendered argument, or by `"?"` when the arguments have
run out.  After the last hit the remaining tail of the template is emitted. -/
def formatLoop (s : List Char) (ps : List (List Char)) (lastPos k : Nat) :
    List Char :=
  match hf : findFrom s lastPos with
  | none => s.drop lastPos
  | some pos =>
    if 0 < pos ∧ s.get? (pos - 1) = some '%' then
      (s.drop lastPos).take (pos - lastPos - 1) ++ SUBSTITUTE_MASK ++
        formatLoop s ps (pos + 2) k
    else if hk : k < ps.length then
      (s.drop lastPos).take (pos - lastPos) ++ ps.get ⟨k, hk⟩ ++
        formatLoop s ps (pos + 2) (k + 1)
    else
      (s.drop lastPos).take (pos - lastPos) ++ ['?'] ++
        formatLoop s ps (pos + 2) k
termination_by s.length - lastPos
decreasing_by
  all_goals
    have := findFrom_sound s lastPos pos hf
    omega

/-- Embedding of the variadic `Format(str, args...)` overload
(format_util.h lines 61-88), applied to the pre-rendered argument strings. -/
def Format (s : List Char) (ps : List (List Char)) : List Char :=
  formatLoop s ps 0 0

/-- Embedding of the zero-argument `Format(str)` overload
(format_util.h lines 92-96): it returns the initial string unchanged. -/
def Format0 (s : List Char) : List Char := s

/-! ## Specification-side definitions

The following definitions restate, by direct structural recursion on the
template, the substitution behaviour the documentation describes: a scan from
left to right in which `"%%?"` is emitted as the literal text `"%?"` without
consuming an argument, `"%?"` is replaced by the next rendered argument (or by
`'?'` when the arguments have run out), and every other character is copied
unchanged.  The bridge theorem `Format_eq_specSubst` below proves the
index-based scan loop of the code equal to this recursion. -/

/-- Specification-side substitution: one left-to-right pass over the template.
`specSubst t ps` consumes the rendered-argument list `ps` front to back, one
element per non-escaped `"%?"` occurrence. -/
def specSubst : List Char → List (List Char) → List Char
  | [], _ => []
  | [c], _ => [c]
  | [c, d], ps =>
    if c = '%' ∧ d = '?' then
      match ps with
      | [] => ['?']
      | p :: _ => p
    else c :: specSubst [d] ps
  | c :: d :: e :: rest, ps =>
    if c = '%' then
      if d = '%' ∧ e = '?' then '%' :: '?' :: specSubst rest ps
      else if d = '?' then
        match ps with
        | [] => '?' :: specSubst (e :: rest) []
        | p :: ps2 => p ++ specSubst (e :: rest) ps2
      else c :: specSubst (d :: e :: rest) ps
    else c :: specSubst (d :: e :: rest) ps

/-- The template contains at least one occurrence of the two-character mask
`"%?"` (escaped or not). -/
def hasMask : List Char → Bool
  | [] => false
  | c :: rest =>
    if c = '%' ∧ rest.head? = some '?' then true else hasMask rest

/-- Decomposition of a template into its literal pieces: the first component
is the literal text before the first non-escaped `"%?"` occurrence, the second
component lists the literal pieces following each successive non-escaped
occurrence.  Escaped occurrences `"%%?"` stay inside the literal pieces as the
text `"%?"` (the escape character is dropped, exactly as the scan emits it). -/
def splitTemplate : List Char → List Char × List (List Char)
  | [] => ([], [])
  | [c] => ([c], [])
  | [c, d] =>
    if c = '%' ∧ d = '?' then ([], [[]])
    else (c :: (splitTemplate [d]).1, (splitTemplate [d]).2)
  | c :: d :: e :: rest =>
    if c = '%' then
      if d = '%' ∧ e = '?' then
        ('%' :: '?' :: (splitTemplate rest).1, (splitTemplate rest).2)
      else if d = '?' then
        ([], (splitTemplate (e :: rest)).1 :: (splitTemplate (e :: rest)).2)
      else
        (c :: (splitTemplate (d :: e :: rest)).1,
          (splitTemplate (d :: e :: rest)).2)
    else
      (c :: (splitTemplate (d :: e :: rest)).1,
        (splitTemplate (d :: e :: rest)).2)

/-- The number of non-escaped `"%?"` occurrences of a template, i.e. the
number of substitution sites the scan will bind to arguments. -/
def countHoles (t : List Char) : Nat := (splitTemplate t).2.length

/-- Interleave the rendered arguments with the literal pieces that follow the
substitution sites: for each piece, emit the next argument (or `"?"` when the
arguments have run out) and then the piece. -/
def fillSegs : List (List Char) → List (List Char) → List Char
  | [], _ => []
  | seg :: segs, ps => ps.headD ['?'] ++ seg ++ fillSegs segs ps.tail

/-- Specification-side result built from the template decomposition: the
leading literal piece, then each argument interleaved with the following
literal pieces. -/
def buildResult (t : List Char) (ps : List (List Char)) : List Char :=
  (splitTemplate t).1 ++ fillSegs (splitTemplate t).2 ps

/-! ## Structural lemmas about the specification-side substitution -/

theorem isMaskAt_cons (c : Char) (r : List Char) (i : Nat) :
    isMaskAt (c :: r) (i + 1) ↔ isMaskAt r i := by
  simp [isMaskAt]

theorem isMaskAt_zero (c d : Char) (r : List Char) :
    isMaskAt (c :: d :: r) 0 ↔ c = '%' ∧ d = '?' := by
  simp [isMaskAt]

theorem isMaskAt_one (c d e : Char) (r : List Char) :
    isMaskAt (c :: d :: e :: r) 1 ↔ d = '%' ∧ e = '?' := by
  simp [isMaskAt]

/-- A template without any occurrence of the mask is reproduced unchanged by
the substitution pass, whatever the argument list is. -/
theorem specSubst_noMask (r : List Char) (qs : List (List Char)) :
    (∀ i, ¬ isMaskAt r i) → specSubst r qs = r := by
  induction r, qs using specSubst.induct with
  | case1 ps => intro _; rfl
  | case2 c ps => intro _; rfl
  | case3 c d h =>
    intro hno
    exact absurd ((isMaskAt_zero c d []).mpr h) (hno 0)
  | case4 c d h p tail =>
    intro hno
    exact absurd ((isMaskAt_zero c d []).mpr h) (hno 0)
  | case5 c d ps h ih =>
    intro hno
    have hno' : ∀ i, ¬ isMaskAt [d] i := fun i hi =>
      hno (i + 1) ((isMaskAt_cons c _ i).mpr hi)
    simp [specSubst, h, ih hno']
  | case6 d e rest ps hde ih =>
    intro hno
    exact absurd ((isMaskAt_one '%' d e rest).mpr hde) (hno 1)
  | case7 e rest hne ih =>
    intro hno
    exact absurd ((isMaskAt_zero '%' '?' (e :: rest)).mpr ⟨rfl, rfl⟩) (hno 0)
  | case8 e rest p tail hne ih =>
    intro hno
    exact absurd ((isMaskAt_zero '%' '?' (e :: rest)).mpr ⟨rfl, rfl⟩) (hno 0)
  | case9 d e rest ps hde hd ih =>
    intro hno
    have hno' : ∀ i, ¬ isMaskAt (d :: e :: rest) i := fun i hi =>
      hno (i + 1) ((isMaskAt_cons '%' _ i).mpr hi)
    simp [specSubst, hde, hd, ih hno']
  | case10 c d e rest ps hc ih =>
    intro hno
    have hno' : ∀ i, ¬ isMaskAt (d :: e :: rest) i := fun i hi =>
      hno (i + 1) ((isMaskAt_cons c _ i).mpr hi)
    simp [specSubst, hc, ih hno']

/-- Substitution step at an escaped occurrence: if the first mask occurrence of
the template is at position `j` and the character before it is `'%'`, the pass
emits the text before the escape character, then the literal mask, and goes on
after the occurrence without touching the argument list. -/
theorem specSubst_escape (qs : List (List Char)) :
    ∀ (j : Nat) (r : List Char), isMaskAt r j → (∀ i, i < j → ¬ isMaskAt r i) →
      1 ≤ j → r.get? (j - 1) = some '%' →
      specSubst r qs =
        r.take (j - 1) ++ SUBSTITUTE_MASK ++ specSubst (r.drop (j + 2)) qs := by
  intro j
  induction j with
  | zero => intro r _ _ hj _; omega
  | succ j ih =>
    intro r hm hmin hj hesc
    rcases r with _ | ⟨c, _ | ⟨d, _ | ⟨e, rest⟩⟩⟩
    · obtain ⟨hlen, -⟩ := List.get?_eq_some.mp hm.2
      simp only [List.length_cons, List.length_nil] at hlen
      omega
    · obtain ⟨hlen, -⟩ := List.get?_eq_some.mp hm.2
      simp only [List.length_cons, List.length_nil] at hlen
      omega
    · obtain ⟨hlen, -⟩ := List.get?_eq_some.mp hm.2
      simp only [List.length_cons, List.length_nil] at hlen
      omega
    · rcases Nat.eq_zero_or_pos j with rfl | hj1
      · -- the mask sits at position 1 and position 0 holds the escape `'%'`
        simp at hesc
        obtain ⟨hd, he⟩ := (isMaskAt_one c d e rest).mp hm
        subst hesc; subst hd; subst he
        simp [specSubst, SUBSTITUTE_MASK]
      · obtain ⟨m, rfl⟩ : ∃ m, j = m + 1 := ⟨j - 1, by omega⟩
        have hm' : isMaskAt (d :: e :: rest) (m + 1) :=
          (isMaskAt_cons c _ (m + 1)).mp hm
        have hmin' : ∀ i, i < m + 1 → ¬ isMaskAt (d :: e :: rest) i :=
          fun i hi hmask =>
            hmin (i + 1) (by omega) ((isMaskAt_cons c _ i).mpr hmask)
        have hesc' : (d :: e :: rest).get? (m + 1 - 1) = some '%' := by
          simpa using hesc
        have step := ih (d :: e :: rest) hm' hmin' (by omega) hesc'
        have hbranch :
            specSubst (c :: d :: e :: rest) qs =
              c :: specSubst (d :: e :: rest) qs := by
          by_cases hc : c = '%'
          · have hde : ¬ (d = '%' ∧ e = '?') := fun h =>
              hmin 1 (by omega) ((isMaskAt_one c d e rest).mpr h)
            have hdq : ¬ d = '?' := fun h =>
              hmin 0 (by omega) ((isMaskAt_zero c d (e :: rest)).mpr ⟨hc, h⟩)
            simp [specSubst, hc, hde, hdq]
          · simp [specSubst, hc]
        rw [hbranch, step]
        simp

/-- Substitution step at a non-escaped occurrence: if the first mask occurrence
of the template is at position `j` and is not directly preceded by `'%'`, the
pass emits the text before it, then the first remaining argument (or `"?"` when
none is left), and goes on after the occurrence with the rest of the arguments. -/
theorem specSubst_hit (qs : List (List Char)) :
    ∀ (j : Nat) (r : List Char), isMaskAt r j → (∀ i, i < j → ¬ isMaskAt r i) →
      (j = 0 ∨ r.get? (j - 1) ≠ some '%') →
      specSubst r qs =
        r.take j ++ qs.headD ['?'] ++ specSubst (r.drop (j + 2)) qs.tail := by
  intro j
  induction j with
  | zero =>
    intro r hm _ _
    rcases r with _ | ⟨c, _ | ⟨d, rest⟩⟩
    · obtain ⟨hlen, -⟩ := List.get?_eq_some.mp hm.2
      simp only [List.length_cons, List.length_nil] at hlen
      omega
    · obtain ⟨hlen, -⟩ := List.get?_eq_some.mp hm.2
      simp only [List.length_cons, List.length_nil] at hlen
      omega
    · obtain ⟨hc, hd⟩ := (isMaskAt_zero c d rest).mp hm
      subst hc; subst hd
      rcases rest with _ | ⟨e, rest'⟩
      · cases qs <;> simp [specSubst]
      · cases qs <;> simp [specSubst]
  | succ j ih =>
    intro r hm hmin hesc
    rcases r with _ | ⟨c, _ | ⟨d, _ | ⟨e, rest⟩⟩⟩
    · obtain ⟨hlen, -⟩ := List.get?_eq_some.mp hm.2
      simp only [List.length_cons, List.length_nil] at hlen
      omega
    · obtain ⟨hlen, -⟩ := List.get?_eq_some.mp hm.2
      simp only [List.length_cons, List.length_nil] at hlen
      omega
    · obtain ⟨hlen, -⟩ := List.get?_eq_some.mp hm.2
      simp only [List.length_cons, List.length_nil] at hlen
      omega
    · have hescr : (c :: d :: e :: rest).get? (j + 1 - 1) ≠ some '%' := by
        rcases hesc with h | h
        · omega
        · exact h
      have hm' : isMaskAt (d :: e :: rest) j := (isMaskAt_cons c _ j).mp hm
      have hmin' : ∀ i, i < j → ¬ isMaskAt (d :: e :: rest) i :=
        fun i hi hmask =>
          hmin (i + 1) (by omega) ((isMaskAt_cons c _ i).mpr hmask)
      have hesc' : j = 0 ∨ (d :: e :: rest).get? (j - 1) ≠ some '%' := by
        rcases Nat.eq_zero_or_pos j with rfl | hj1
        · exact Or.inl rfl
        · refine Or.inr ?_
          obtain ⟨m, rfl⟩ : ∃ m, j = m + 1 := ⟨j - 1, by omega⟩
          simpa using hescr
      have step := ih (d :: e :: rest) hm' hmin' hesc'
      have hbranch :
          specSubst (c :: d :: e :: rest) qs =
            c :: specSubst (d :: e :: rest) qs := by
        by_cases hc : c = '%'
        · have hde : ¬ (d = '%' ∧ e = '?') := by
            intro h
            rcases Nat.eq_zero_or_pos j with rfl | hj1
            · exact hescr (by simpa using congrArg some hc)
            · exact hmin 1 (by omega) ((isMaskAt_one c d e rest).mpr h)
          have hdq : ¬ d = '?' := fun h =>
            hmin 0 (by omega) ((isMaskAt_zero c d (e :: rest)).mpr ⟨hc, h⟩)
          simp [specSubst, hc, hde, hdq]
        · simp [specSubst, hc]
      rw [hbranch, step]
      simp

theorem get?_drop' (s : List Char) (n i : Nat) :
    (s.drop n).get? i = s.get? (n + i) := by
  simp [List.get?_eq_getElem?, List.getElem?_drop]

theorem isMaskAt_drop (s : List Char) (n i : Nat) :
    isMaskAt (s.drop n) i ↔ isMaskAt s (n + i) := by
  unfold isMaskAt
  rw [get?_drop', get?_drop', Nat.add_assoc]

/-! ## The bridge: the scan loop of the code equals the one-pass recursion

The only global fact needed about the loop state is that `last_pos` is either
`0` or sits directly after a consumed mask, whose final character is `'?'`;
this is what makes the code's one-character look-back `str.at(pos - 1)` agree
with the escape test of the left-to-right reading. -/

theorem formatLoop_eq_spec (s : List Char) (ps : List (List Char)) :
    ∀ (lastPos k : Nat), (lastPos = 0 ∨ s.get? (lastPos - 1) = some '?') →
      formatLoop s ps lastPos k = specSubst (s.drop lastPos) (ps.drop k) := by
  intro lastPos k
  induction lastPos, k using formatLoop.induct s ps with
  | case1 lastPos k hf =>
    intro _
    have hno : ∀ i, ¬ isMaskAt (s.drop lastPos) i := fun i hmask =>
      findFrom_none s lastPos hf (lastPos + i) (by omega)
        ((isMaskAt_drop s lastPos i).mp hmask)
    rw [specSubst_noMask _ _ hno, formatLoop.eq_def]
    split
    · rfl
    · next pos heq => rw [hf] at heq; cases heq
  | case2 lastPos k pos hf hcond ih =>
    intro hinv
    obtain ⟨hle, hlt, hmask, hmin⟩ := findFrom_sound s lastPos pos hf
    have hlp : lastPos < pos := by
      rcases Nat.eq_or_lt_of_le hle with rfl | h
      · rcases hinv with h0 | hq
        · omega
        · have : some '?' = some '%' := hq.symm.trans hcond.2
          cases this
      · exact h
    have hm' : isMaskAt (s.drop lastPos) (pos - lastPos) := by
      rw [isMaskAt_drop]
      have : lastPos + (pos - lastPos) = pos := by omega
      rw [this]; exact hmask
    have hmin' : ∀ i, i < pos - lastPos → ¬ isMaskAt (s.drop lastPos) i :=
      fun i hi hmask' =>
        hmin (lastPos + i) (by omega) (by omega)
          ((isMaskAt_drop s lastPos i).mp hmask')
    have hesc' : (s.drop lastPos).get? (pos - lastPos - 1) = some '%' := by
      rw [get?_drop']
      have : lastPos + (pos - lastPos - 1) = pos - 1 := by omega
      rw [this]; exact hcond.2
    have hdd : (s.drop lastPos).drop (pos - lastPos + 2) = s.drop (pos + 2) := by
      rw [List.drop_drop]
      congr 1
      omega
    have hinv' : pos + 2 = 0 ∨ s.get? (pos + 2 - 1) = some '?' :=
      Or.inr hmask.2
    have hspec := specSubst_escape (ps.drop k) (pos - lastPos) (s.drop lastPos)
      hm' hmin' (by omega) hesc'
    rw [hdd] at hspec
    rw [formatLoop.eq_def]
    split
    · next heq => rw [hf] at heq; cases heq
    · next pos' heq =>
      rw [hf] at heq
      cases heq
      rw [if_pos hcond, ih hinv', hspec]
  | case3 lastPos k pos hf hcond hk ih =>
    intro hinv
    obtain ⟨hle, hlt, hmask, hmin⟩ := findFrom_sound s lastPos pos hf
    have hm' : isMaskAt (s.drop lastPos) (pos - lastPos) := by
      rw [isMaskAt_drop]
      have : lastPos + (pos - lastPos) = pos := by omega
      rw [this]; exact hmask
    have hmin' : ∀ i, i < pos - lastPos → ¬ isMaskAt (s.drop lastPos) i :=
      fun i hi hmask' =>
        hmin (lastPos + i) (by omega) (by omega)
          ((isMaskAt_drop s lastPos i).mp hmask')
    have hesc' : pos - lastPos = 0 ∨
        (s.drop lastPos).get? (pos - lastPos - 1) ≠ some '%' := by
      rcases Nat.eq_or_lt_of_le hle with rfl | h
      · exact Or.inl (by omega)
      · refine Or.inr ?_
        rw [get?_drop']
        have : lastPos + (pos - lastPos - 1) = pos - 1 := by omega
        rw [this]
        intro hcontra
        exact hcond ⟨by omega, hcontra⟩
    have hdd : (s.drop lastPos).drop (pos - lastPos + 2) = s.drop (pos + 2) := by
      rw [List.drop_drop]
      congr 1
      omega
    have hdropk : ps.drop k = ps.get ⟨k, hk⟩ :: ps.drop (k + 1) := by
      rw [List.drop_eq_getElem_cons hk]; rfl
    have hinv' : pos + 2 = 0 ∨ s.get? (pos + 2 - 1) = some '?' :=
      Or.inr hmask.2
    have hspec := specSubst_hit (ps.drop k) (pos - lastPos) (s.drop lastPos)
      hm' hmin' hesc'
    rw [hdd, hdropk] at hspec
    simp only [List.headD_cons, List.tail_cons] at hspec
    rw [formatLoop.eq_def]
    split
    · next heq => rw [hf] at heq; cases heq
    · next pos' heq =>
      rw [hf] at heq
      cases heq
      rw [if_neg hcond, dif_pos hk, ih hinv', hdropk, hspec]
  | case4 lastPos k pos hf hcond hk ih =>
    intro hinv
    obtain ⟨hle, hlt, hmask, hmin⟩ := findFrom_sound s lastPos pos hf
    have hm' : isMaskAt (s.drop lastPos) (pos - lastPos) := by
      rw [isMaskAt_drop]
      have : lastPos + (pos - lastPos) = pos := by omega
      rw [this]; exact hmask
    have hmin' : ∀ i, i < pos - lastPos → ¬ isMaskAt (s.drop lastPos) i :=
      fun i hi hmask' =>
        hmin (lastPos + i) (by omega) (by omega)
          ((isMaskAt_drop s lastPos i).mp hmask')
    have hesc' : pos - lastPos = 0 ∨
        (s.drop lastPos).get? (pos - lastPos - 1) ≠ some '%' := by
      rcases Nat.eq_or_lt_of_le hle with rfl | h
      · exact Or.inl (by omega)
      · refine Or.inr ?_
        rw [get?_drop']
        have : lastPos + (pos - lastPos - 1) = pos - 1 := by omega
        rw [this]
        intro hcontra
        exact hcond ⟨by omega, hcontra⟩
    have hdd : (s.drop lastPos).drop (pos - lastPos + 2) = s.drop (pos + 2) := by
      rw [List.drop_drop]
      congr 1
      omega
    have hdropk : ps.drop k = [] :=
      List.drop_eq_nil_of_le (by omega)
    have hinv' : pos + 2 = 0 ∨ s.get? (pos + 2 - 1) = some '?' :=
      Or.inr hmask.2
    have hspec := specSubst_hit (ps.drop k) (pos - lastPos) (s.drop lastPos)
      hm' hmin' hesc'
    rw [hdd, hdropk] at hspec
    simp only [List.headD_nil, List.tail_nil] at hspec
    rw [formatLoop.eq_def]
    split
    · next heq => rw [hf] at heq; cases heq
    · next pos' heq =>
      rw [hf] at heq
      cases heq
      rw [if_neg hcond, dif_neg hk, ih hinv', hdropk, hspec]

/-- The scan-and-substitute loop of `Formatter::Format` computes exactly the
one-pass left-to-right substitution described by the specification. -/
theorem Format_eq_specSubst (t : List Char) (ps : List (List Char)) :
    Format t ps = specSubst t ps := by
  have h := formatLoop_eq_spec t ps 0 0 (Or.inl rfl)
  simpa [Format] using h

/-! ## The decomposition view of the substitution -/

/-- The one-pass substitution equals the decomposition view: emit the literal
piece before the first substitution site, then alternate arguments (or `"?"`)
with the literal pieces that follow the successive substitution sites. -/
theorem specSubst_eq_buildResult (t : List Char) (ps : List (List Char)) :
    specSubst t ps = buildResult t ps := by
  induction t, ps using specSubst.induct with
  | case1 ps => rfl
  | case2 c ps => rfl
  | case3 c d h =>
    obtain ⟨rfl, rfl⟩ := h
    simp [specSubst, buildResult, splitTemplate, fillSegs]
  | case4 c d h p tail =>
    obtain ⟨rfl, rfl⟩ := h
    simp [specSubst, buildResult, splitTemplate, fillSegs]
  | case5 c d ps h ih =>
    simp [specSubst, buildResult, splitTemplate, fillSegs, h, ih]
  | case6 d e rest ps hde ih =>
    obtain ⟨rfl, rfl⟩ := hde
    simp [specSubst, buildResult, splitTemplate, fillSegs, ih]
  | case7 e rest hne ih =>
    simp [specSubst, buildResult, splitTemplate, fillSegs, ih]
  | case8 e rest p tail hne ih =>
    simp [specSubst, buildResult, splitTemplate, fillSegs, ih]
  | case9 d e rest ps hde hd ih =>
    simp [specSubst, buildResult, splitTemplate, fillSegs, hde, hd, ih]
  | case10 c d e rest ps hc ih =>
    simp [specSubst, buildResult, splitTemplate, fillSegs, hc, ih]

/-- With exactly as many arguments as pieces, the interleaving is the
flattened zip: argument `i` followed by the literal piece after occurrence `i`. -/
theorem fillSegs_zip (segs : List (List Char)) :
    ∀ ps : List (List Char), segs.length = ps.length →
      fillSegs segs ps = ((ps.zip segs).map fun pr => pr.1 ++ pr.2).flatten := by
  induction segs with
  | nil =>
    intro ps h
    have : ps = [] := List.eq_nil_of_length_eq_zero h.symm
    subst this
    rfl
  | cons seg segs ih =>
    intro ps h
    rcases ps with _ | ⟨p, ps'⟩
    · simp at h
    · simp only [List.length_cons, Nat.add_right_cancel_iff] at h
      simp [fillSegs, List.zip, ih ps' h, List.append_assoc]

/-- Arguments beyond the number of substitution sites never reach the output. -/
theorem fillSegs_append_extra (segs : List (List Char)) :
    ∀ ps qs : List (List Char), segs.length ≤ ps.length →
      fillSegs segs (ps ++ qs) = fillSegs segs ps := by
  induction segs with
  | nil => intro ps qs _; rfl
  | cons seg segs ih =>
    intro ps qs h
    rcases ps with _ | ⟨p, ps'⟩
    · simp at h
    · simp only [List.length_cons] at h
      simp [fillSegs, ih ps' qs (by omega)]

/-- Missing arguments act exactly like explicit `"?"` arguments: padding the
argument list with `"?"` up to the number of substitution sites is invisible. -/
theorem fillSegs_pad (segs : List (List Char)) :
    ∀ ps : List (List Char), ps.length ≤ segs.length →
      fillSegs segs ps =
        fillSegs segs (ps ++ List.replicate (segs.length - ps.length) ['?']) := by
  induction segs with
  | nil => intro ps _; rfl
  | cons seg segs ih =>
    intro ps h
    rcases ps with _ | ⟨p, ps'⟩
    · have hrec := ih [] (Nat.zero_le _)
      simp only [List.nil_append, List.length_nil, Nat.sub_zero] at hrec
      simp [fillSegs, List.replicate_succ, hrec]
    · simp only [List.length_cons] at h
      simp [fillSegs, ih ps' (by omega)]

/-- A template on which `hasMask` is `false` has no mask occurrence at any
position. -/
theorem hasMask_false_noMask (t : List Char) :
    hasMask t = false → ∀ i, ¬ isMaskAt t i := by
  induction t with
  | nil =>
    intro _ i hm
    obtain ⟨hlen, -⟩ := List.get?_eq_some.mp hm.2
    simp at hlen
  | cons c rest ih =>
    intro h i
    rw [hasMask] at h
    by_cases hc : c = '%' ∧ rest.head? = some '?'
    · rw [if_pos hc] at h; cases h
    · rw [if_neg hc] at h
      rcases i with _ | i
      · intro hm
        rcases rest with _ | ⟨d, rest'⟩
        · obtain ⟨hlen, -⟩ := List.get?_eq_some.mp hm.2
          simp at hlen
        · exact hc ⟨((isMaskAt_zero c d rest').mp hm).1, by
            simp [((isMaskAt_zero c d rest').mp hm).2]⟩
      · intro hm
        exact ih h i ((isMaskAt_cons c rest i).mp hm)

/-- Substitution after a clean literal: if the text before an escaped
occurrence `"%%?"` contains no mask occurrence of its own, the pass emits that
text, then the literal `"%?"` (the escape `'%'` is consumed), and continues
after the occurrence without consuming an argument. -/
theorem specSubst_escape_after_clean (pre rest : List Char)
    (ps : List (List Char)) (hpre : ∀ i, ¬ isMaskAt pre i) :
    specSubst (pre ++ '%' :: '%' :: '?' :: rest) ps =
      pre ++ '%' :: '?' :: specSubst rest ps := by
  have hg0 : (pre ++ '%' :: '%' :: '?' :: rest).get? pre.length = some '%' := by
    rw [List.get?_append_right (Nat.le_refl _), Nat.sub_self]
    rfl
  have hg1 : (pre ++ '%' :: '%' :: '?' :: rest).get? (pre.length + 1) =
      some '%' := by
    rw [List.get?_append_right (by omega)]
    have : pre.length + 1 - pre.length = 1 := by omega
    rw [this]
    rfl
  have hg2 : (pre ++ '%' :: '%' :: '?' :: rest).get? (pre.length + 1 + 1) =
      some '?' := by
    rw [List.get?_append_right (by omega)]
    have : pre.length + 1 + 1 - pre.length = 2 := by omega
    rw [this]
    rfl
  have hm : isMaskAt (pre ++ '%' :: '%' :: '?' :: rest) (pre.length + 1) :=
    ⟨hg1, hg2⟩
  have hmin : ∀ i, i < pre.length + 1 →
      ¬ isMaskAt (pre ++ '%' :: '%' :: '?' :: rest) i := by
    intro i hi hmask
    rcases Nat.lt_or_ge i pre.length with hilt | hige
    · rcases Nat.lt_or_ge (i + 1) pre.length with hilt1 | hige1
      · refine hpre i ⟨?_, ?_⟩
        · rw [← List.get?_append hilt]
          exact hmask.1
        · rw [← List.get?_append hilt1]
          exact hmask.2
      · have : i + 1 = pre.length := by omega
        have h2 := hmask.2
        rw [this, hg0] at h2
        cases h2
    · have : i = pre.length := by omega
      have h2 := hmask.2
      rw [this, hg1] at h2
      cases h2
  have hesc : (pre ++ '%' :: '%' :: '?' :: rest).get? (pre.length + 1 - 1) =
      some '%' := by
    have : pre.length + 1 - 1 = pre.length := by omega
    rw [this]
    exact hg0
  have hstep := specSubst_escape ps (pre.length + 1)
    (pre ++ '%' :: '%' :: '?' :: rest) hm hmin (by omega) hesc
  have htake : (pre ++ '%' :: '%' :: '?' :: rest).take (pre.length + 1 - 1) =
      pre := by
    have : pre.length + 1 - 1 = pre.length := by omega
    rw [this]
    exact List.take_left pre _
  have hdrop : (pre ++ '%' :: '%' :: '?' :: rest).drop (pre.length + 1 + 2) =
      rest := by
    have : pre.length + 1 + 2 = pre.length + 3 := by omega
    rw [this, List.drop_append]
    rfl
  rw [hstep, htake, hdrop, SUBSTITUTE_MASK]
  simp

/-! ## Value rendering: the `OutputValue` overload family

`Formatter::OutputValue` (format_util.h lines 261-332) is an overload set,
one overload per argument capability.  The inductive `Value` has one
constructor per overload that can be selected in a compiling call:

* `Value.bool`    — the `bool` overload (lines 321-325);
* `Value.text`    — the `std::basic_string` overload (lines 297-305);
* `Value.pair`    — the `std::pair` overload (lines 307-318);
* `Value.custom`  — the `operator<<` overload (lines 261-269); the payload is
                    the text that the value's `operator<<` writes under the
                    active stream settings (the numeric backend itself is an
                    external collaborator, outside the formatting core);
* `Value.seq`     — the iterable overload (lines 271-295);
* `Value.unknown` — the variadic `...` fallback (lines 327-332). -/
inductive Value where
  | bool : Bool → Value
  | text : List Char → Value
  | pair : Value → Value → Value
  | custom : List Char → Value
  | seq : List Value → Value
  | unknown : Value

mutual

/-- Embedding of the `OutputValue` overload bodies: the text the selected
overload writes to the stream for a given argument value. -/
def OutputValue : Value → List Char
  | Value.bool b => if b then strL "true" else strL "false"
  | Value.text s => s
  | Value.pair a b =>
    '\x7b' :: (OutputValue a ++ ' ' :: ':' :: ' ' :: OutputValue b) ++ ['\x7d']
  | Value.custom s => s
  | Value.seq vs => '[' :: outputSeqBody vs ++ [']']
  | Value.unknown => ['?']

/-- The element loop of the iterable overload (format_util.h lines 287-293):
each element is rendered recursively through `OutputValue`, and `", "` is
written after every element except the last. -/
def outputSeqBody : List Value → List Char
  | [] => []
  | [v] => OutputValue v
  | v :: w :: vs => OutputValue v ++ ',' :: ' ' :: outputSeqBody (w :: vs)

end

/-- Specification-side separator join: the pieces comma-and-space separated,
with no trailing separator after the last piece. -/
def sepByCommaSpace : List (List Char) → List Char
  | [] => []
  | [x] => x
  | x :: y :: rest => x ++ ',' :: ' ' :: sepByCommaSpace (y :: rest)

theorem outputSeqBody_eq_sep (vs : List Value) :
    outputSeqBody vs = sepByCommaSpace (vs.map OutputValue) := by
  induction vs with
  | nil => simp [outputSeqBody, sepByCommaSpace]
  | cons v vs ih =>
    cases vs with
    | nil => simp [outputSeqBody, sepByCommaSpace]
    | cons w vs' => simp [outputSeqBody, sepByCommaSpace, ih]

/-! ## Formatting settings: flags, precision, locale

Embedding of the accessor methods of `Formatter` (format_util.h lines
101-186).  `std::ios_base::fmtflags` is a bit mask, modelled as `Nat`;
`std::streamsize` as `Int`; the locale as an opaque identity, modelled as
`Nat`.  Each setter is a function from the current member state to the pair
(returned value, new member state); `UnSetF` returns `void` in the code, so
its embedding returns only the new state. -/

structure FormatterState where
  m_flags : Nat
  m_precision : Int
  m_locale : Nat
deriving DecidableEq

/-- Clearing the `m`-bits of `x`, i.e. the C++ expression `x & ~m`: on any
fixed-width bit mask, `x & ~m` keeps exactly the bits of `x` outside `m`,
which equals `x ^^^ (x &&& m)` independently of the width. -/
def andNot (x m : Nat) : Nat := x ^^^ (x &&& m)

/-- Getter `Flags()` (format_util.h lines 101-104). -/
def Flags (st : FormatterState) : Nat := st.m_flags

/-- Setter `Flags(flags)` (format_util.h lines 110-115): replaces the flags,
returns the flags held before the call. -/
def FlagsSet (st : FormatterState) (flags : Nat) : Nat × FormatterState :=
  (st.m_flags, { st with m_flags := flags })

/-- `SetF(flags)` (format_util.h lines 121-126): ors the given flags in,
returns the flags held before the call. -/
def SetF (st : FormatterState) (flags : Nat) : Nat × FormatterState :=
  (st.m_flags, { st with m_flags := st.m_flags ||| flags })

/-- `SetF(flags, mask)` (format_util.h lines 133-139): clears the bits under
`mask` and sets them from `flags`, returns the flags held before the call. -/
def SetFMasked (st : FormatterState) (flags mask : Nat) :
    Nat × FormatterState :=
  (st.m_flags,
    { st with m_flags := andNot st.m_flags mask ||| (flags &&& mask) })

/-- `UnSetF(flags)` (format_util.h lines 144-147): clears the given flags.
The C++ return type is `void`, so only the new state comes back. -/
def UnSetF (st : FormatterState) (flags : Nat) : FormatterState :=
  { st with m_flags := andNot st.m_flags flags }

/-- `Imbue(loc)` (format_util.h lines 154-159): replaces the locale, returns
the locale associated before the call. -/
def Imbue (st : FormatterState) (loc : Nat) : Nat × FormatterState :=
  (st.m_locale, { st with m_locale := loc })

/-- Getter `Getloc()` (format_util.h lines 164-167). -/
def Getloc (st : FormatterState) : Nat := st.m_locale

/-- Getter `Precision()` (format_util.h lines 172-175). -/
def Precision (st : FormatterState) : Int := st.m_precision

/-- Setter `Precision(prec)` (format_util.h lines 181-186): replaces the
precision, returns the precision held before the call. -/
def PrecisionSet (st : FormatterState) (prec : Int) : Int × FormatterState :=
  (st.m_precision, { st with m_precision := prec })

/-! ## Overload resolution for `OutputValue`

Which `OutputValue` overload handles an argument is decided at compile time
by C++ overload resolution over the argument type's capabilities.  The
relevant capabilities of a type, as probed by the overload set, are recorded
in `TypeCaps`; `resolveOutputOverload` is the outcome of C++ overload
resolution over the six overloads (format_util.h lines 261-332):

* a `bool` argument: the dedicated `bool` overload has a non-template value
  parameter, so partial ordering prefers it over the generic `const T&`
  overloads — the boolean rule always wins;
* a `std::basic_string` argument: the `const std::basic_string<T>&` parameter
  is more specialised than `const T&`, so it beats both the `operator<<`
  overload and the iterable overload, which such an argument also satisfies;
* a `std::pair` argument: the `const std::pair<T,V>&` parameter is more
  specialised than `const T&`, so the pair overload wins when applicable;
* a type that has `operator<<` and is *also* iterable: the two remaining
  candidates are both function templates with the identical parameter list
  `(Stream&, const T&)`, differing only in their defaulted template
  arguments; neither is more specialised, so the call is ambiguous and the
  program is ill-formed (`none`).  This is exactly the situation the header's
  own `Output`/`FWrapper` helper documents: "The helper-method for
  suppressing ambiguous overloading for output" (format_util.h lines
  196-204);
* otherwise: `operator<<` alone, iterable alone, or the variadic fallback. -/
structure TypeCaps where
  isBool : Bool
  isBasicString : Bool
  isPair : Bool
  hasInsertOp : Bool
  isIterable : Bool
deriving DecidableEq

/-- The six rendering rules of the dispatch, in the order the specification
lists them. -/
inductive RenderRule where
  | booleanRule | textRule | pairRule | customRule | sequenceRule | unknownRule
deriving DecidableEq

/-- Outcome of C++ overload resolution over the `OutputValue` overload set for
an argument whose type has the given capabilities; `none` means the call is
ambiguous and does not compile. -/
def resolveOutputOverload (c : TypeCaps) : Option RenderRule :=
  if c.isBool then some RenderRule.booleanRule
  else if c.isBasicString then some RenderRule.textRule
  else if c.isPair then some RenderRule.pairRule
  else if c.hasInsertOp && c.isIterable then none
  else if c.hasInsertOp then some RenderRule.customRule
  else if c.isIterable then some RenderRule.sequenceRule
  else some RenderRule.unknownRule

/-- Capabilities of the proxy `FWrapper<T>` returned by `Formatter::Output`
(format_util.h lines 188-213 and 335-342): it has a dedicated `operator<<`
and none of the other capabilities, so wrapping forces the custom rule. -/
def outputWrapCaps : TypeCaps :=
  { isBool := false, isBasicString := false, isPair := false,
    hasInsertOp := true, isIterable := false }

/-! ## The claims -/

/-- C1: for every template with exactly `N` non-escaped `"%?"` occurrences and
every call supplying exactly `N` (rendered) arguments, `Format` returns the
template with the `i`-th non-escaped occurrence, in left-to-right scan order,
replaced by the rendered string of argument `i`, and all other template text
unchanged: the output is the leading literal piece followed by the flattened
in-order pairing of argument `i` with the literal piece after occurrence `i`. -/
theorem C1_format_substitutes_in_order (t : List Char)
    (ps : List (List Char)) (h : countHoles t = ps.length) :
    Format t ps =
      (splitTemplate t).1 ++
        ((ps.zip (splitTemplate t).2).map fun pr => pr.1 ++ pr.2).flatten := by
  rw [Format_eq_specSubst, specSubst_eq_buildResult, buildResult,
    fillSegs_zip (splitTemplate t).2 ps h]

theorem C1_witness :
    countHoles (strL "Num: %?, s: %?") = 2 ∧
      Format (strL "Num: %?, s: %?") [strL "10.5", strL "xyz"] =
        strL "Num: 10.5, s: xyz" := by
  refine ⟨by decide, ?_⟩
  rw [C1_format_substitutes_in_order _ _ (by decide)]
  decide

/-- C2: `Format` never fails on an argument-count mismatch.  With more
arguments than non-escaped occurrences the extra arguments are never inserted
(appending them changes nothing), and with fewer arguments each extra
occurrence gets the unknown marker `"?"` (padding the argument list with
`"?"` strings up to the occurrence count changes nothing).  `Format` is a
total function of the embedding, so no error is possible at all. -/
theorem C2_arity_mismatch_lenient (t : List Char)
    (ps qs rs : List (List Char)) (hover : countHoles t ≤ ps.length)
    (hunder : rs.length ≤ countHoles t) :
    Format t (ps ++ qs) = Format t ps ∧
    Format t rs =
      Format t (rs ++ List.replicate (countHoles t - rs.length) ['?']) := by
  constructor
  · rw [Format_eq_specSubst, Format_eq_specSubst, specSubst_eq_buildResult,
      specSubst_eq_buildResult, buildResult, buildResult,
      fillSegs_append_extra (splitTemplate t).2 ps qs hover]
  · rw [Format_eq_specSubst, Format_eq_specSubst, specSubst_eq_buildResult,
      specSubst_eq_buildResult, buildResult, buildResult,
      fillSegs_pad (splitTemplate t).2 rs hunder]
    rfl

theorem C2_witness :
    Format (strL "%?") [strL "1", strL "2", strL "3"] =
        Format (strL "%?") [strL "1"] ∧
      Format (strL "%?") [strL "1", strL "2", strL "3"] = strL "1" ∧
      Format (strL "%?, %?, %?") [strL "1"] = strL "1, ?, ?" := by
  refine ⟨?_, ?_, ?_⟩
  · exact (C2_arity_mismatch_lenient (strL "%?") [strL "1"]
      [strL "2", strL "3"] [] (by decide) (by decide)).1
  · rw [Format_eq_specSubst]; decide
  · rw [Format_eq_specSubst]; decide

/-- C3: a `"%?"` occurrence directly preceded by the escape character `'%'`
is emitted as the literal text `"%?"` with the escape consumed (not doubled),
consumes no argument, and scanning continues after the occurrence.  The
hypothesis says the occurrence reached by the scan is this one: the text
before the escape contains no earlier mask occurrence. -/
theorem C3_escaped_occurrence_literal (pre rest : List Char)
    (ps : List (List Char)) (hpre : ∀ i, ¬ isMaskAt pre i) :
    Format (pre ++ '%' :: '%' :: '?' :: rest) ps =
      pre ++ '%' :: '?' :: Format rest ps := by
  rw [Format_eq_specSubst, Format_eq_specSubst]
  exact specSubst_escape_after_clean pre rest ps hpre

theorem C3_witness : Format (strL "100%%?") [] = strL "100%?" := by
  have h := C3_escaped_occurrence_literal (strL "100") [] []
    (hasMask_false_noMask (strL "100") (by decide))
  have h0 : Format ([] : List Char) [] = ([] : List Char) := by
    rw [Format_eq_specSubst]
    rfl
  rw [h0] at h
  exact h

/-- C4 counterexample: a type that both has `operator<<` (custom-convertible)
and is iterable (a sequence) is not rendered through its custom conversion, as
the claim states: the two candidate overloads tie in partial ordering, the
call is ambiguous, and no overload is selected at all — the code's own
`Output`/`FWrapper` helper exists precisely "for suppressing ambiguous
overloading" (format_util.h lines 196-204). -/
theorem C4_counterexample :
    resolveOutputOverload
        { isBool := false, isBasicString := false, isPair := false,
          hasInsertOp := true, isIterable := true } = none ∧
      (none : Option RenderRule) ≠ some RenderRule.customRule := by
  exact ⟨rfl, by decide⟩

/-- C4 (amended): dispatch selects the rendering rule by capability with the
priority boolean > text > pair ahead of everything else; below those, a type
with only `operator<<` gets the custom rule, a type that is only iterable
gets the sequence rule, a type with neither gets the unknown rule — but a
type that is both custom-convertible and iterable is an ambiguous call (no
rule), and the `Output` wrapper is the helper that forces such a value
through the custom rule. -/
theorem C4_dispatch_priority_amended (c : TypeCaps) :
    (c.isBool = true → resolveOutputOverload c = some RenderRule.booleanRule) ∧
    (c.isBool = false → c.isBasicString = true →
      resolveOutputOverload c = some RenderRule.textRule) ∧
    (c.isBool = false → c.isBasicString = false → c.isPair = true →
      resolveOutputOverload c = some RenderRule.pairRule) ∧
    (c.isBool = false → c.isBasicString = false → c.isPair = false →
      c.hasInsertOp = true → c.isIterable = false →
      resolveOutputOverload c = some RenderRule.customRule) ∧
    (c.isBool = false → c.isBasicString = false → c.isPair = false →
      c.hasInsertOp = false → c.isIterable = true →
      resolveOutputOverload c = some RenderRule.sequenceRule) ∧
    (c.isBool = false → c.isBasicString = false → c.isPair = false →
      c.hasInsertOp = true → c.isIterable = true →
      resolveOutputOverload c = none) ∧
    (c.isBool = false → c.isBasicString = false → c.isPair = false →
      c.hasInsertOp = false → c.isIterable = false →
      resolveOutputOverload c = some RenderRule.unknownRule) ∧
    resolveOutputOverload outputWrapCaps = some RenderRule.customRule := by
  obtain ⟨b, s, p, i, it⟩ := c
  cases b <;> cases s <;> cases p <;> cases i <;> cases it <;>
    simp [resolveOutputOverload, outputWrapCaps]

theorem C4_witness :
    resolveOutputOverload
        { isBool := true, isBasicString := false, isPair := false,
          hasInsertOp := true, isIterable := false } =
      some RenderRule.booleanRule ∧
    resolveOutputOverload
        { isBool := false, isBasicString := true, isPair := false,
          hasInsertOp := true, isIterable := true } =
      some RenderRule.textRule :=
  ⟨(C4_dispatch_priority_amended _).1 rfl,
    (C4_dispatch_priority_amended _).2.1 rfl rfl⟩

/-- C5 counterexample: the zero-argument overload is not behaviorally
identical to the general scan-and-substitute path with an empty argument list
on every template: on `"%?"` the overload returns `"%?"` unchanged while the
general path substitutes the unknown marker and returns `"?"`. -/
theorem C5_counterexample :
    Format0 (strL "%?") = strL "%?" ∧ Format (strL "%?") [] = strL "?" ∧
      strL "%?" ≠ strL "?" := by
  refine ⟨rfl, ?_, by decide⟩
  rw [Format_eq_specSubst]
  decide

/-- C5 (amended): the zero-argument overload returns the template unchanged,
and this agrees with the general scan-and-substitute path run on an empty
argument list whenever the template contains no occurrence of the mask
`"%?"` (escaped occurrences are rewritten and non-escaped ones consume the
marker, so on templates with any occurrence the two differ). -/
theorem C5_zero_arg_overload_amended (t : List Char)
    (hm : hasMask t = false) :
    Format0 t = t ∧ Format t [] = Format0 t := by
  refine ⟨rfl, ?_⟩
  rw [Format_eq_specSubst, Format0, specSubst_noMask t []
    (hasMask_false_noMask t hm)]

theorem C5_witness :
    Format0 (strL "No args") = strL "No args" ∧
      Format (strL "No args") [] = Format0 (strL "No args") :=
  C5_zero_arg_overload_amended (strL "No args") (by decide)

/-- C6: a template in which the two-character token `"%?"` does not occur at
all is returned unchanged by `Format`, whatever the argument list (the
rendered arguments stand in for arguments of any count and any types). -/
theorem C6_no_mask_unchanged (t : List Char) (ps : List (List Char))
    (h : hasMask t = false) : Format t ps = t := by
  rw [Format_eq_specSubst]
  exact specSubst_noMask t ps (hasMask_false_noMask t h)

theorem C6_witness :
    hasMask (strL "plain text, 100% pure") = false ∧
      Format (strL "plain text, 100% pure") [strL "A", strL "true", strL "?"] =
        strL "plain text, 100% pure" :=
  ⟨by decide, C6_no_mask_unchanged _ _ (by decide)⟩

/-- C7: a sequence value renders as `'['`, the recursively rendered elements
separated by `", "` with no trailing separator, then `']'`; the empty
sequence renders as `"[]"`; nested composites render by recursive application
of the same dispatch (the elements go through `OutputValue` itself). -/
theorem C7_sequence_rendering :
    (∀ vs : List Value,
      OutputValue (Value.seq vs) =
        '[' :: sepByCommaSpace (vs.map OutputValue) ++ [']']) ∧
    OutputValue (Value.seq []) = strL "[]" ∧
    OutputValue (Value.seq
        [Value.text (strL "apple"), Value.text (strL "pear"),
          Value.text (strL "banana")]) = strL "[apple, pear, banana]" ∧
    OutputValue (Value.seq [Value.seq [], Value.seq [Value.bool true]]) =
      strL "[[], [true]]" := by
  refine ⟨?_, ?_, ?_, ?_⟩
  · intro vs
    simp [OutputValue, outputSeqBody_eq_sep]
  · simp [OutputValue, outputSeqBody]
    decide
  · simp [OutputValue, outputSeqBody]
    decide
  · simp [OutputValue, outputSeqBody]
    decide

/-- C8 counterexample: the flag-clearing operation `UnSetF` does not return
the value held before the call — its C++ return type is `void`.  Two states
whose flags differ before the call map to identical results, so nothing
`UnSetF` returns can be the previous flag value. -/
theorem C8_counterexample :
    UnSetF { m_flags := 5, m_precision := 6, m_locale := 0 } 5 =
        UnSetF { m_flags := 4, m_precision := 6, m_locale := 0 } 5 ∧
      (5 : Nat) ≠ 4 :=
  ⟨by decide, by decide⟩

/-- C8 (amended): the value-returning setters — `Flags(flags)`, `SetF(flags)`,
`SetF(flags, mask)`, `Precision(prec)` and `Imbue(loc)` — each return the
flags, precision or locale held before the call; `UnSetF` returns nothing. -/
theorem C8_setters_return_previous (st : FormatterState) (f m : Nat)
    (p : Int) (loc : Nat) :
    (FlagsSet st f).1 = Flags st ∧
    (SetF st f).1 = Flags st ∧
    (SetFMasked st f m).1 = Flags st ∧
    (PrecisionSet st p).1 = Precision st ∧
    (Imbue st loc).1 = Getloc st :=
  ⟨rfl, rfl, rfl, rfl, rfl⟩

/-- C9: the substitution sites and the number of arguments consumed depend
only on the template: for any two argument lists of equal length, `Format`
decomposes over the same literal pieces `splitTemplate t`, and each rendered
argument is copied into the output verbatim by `fillSegs` — never re-scanned,
so a `"%?"` inside an argument is never treated as a placeholder and never
consumes a further argument. -/
theorem C9_substitution_sites_template_only (t : List Char)
    (ps qs : List (List Char)) (h : ps.length = qs.length) :
    Format t ps = (splitTemplate t).1 ++ fillSegs (splitTemplate t).2 ps ∧
    Format t qs = (splitTemplate t).1 ++ fillSegs (splitTemplate t).2 qs :=
  ⟨by rw [Format_eq_specSubst, specSubst_eq_buildResult, buildResult],
    by rw [Format_eq_specSubst, specSubst_eq_buildResult, buildResult]⟩

theorem C9_witness :
    Format (strL "%?%?") [strL "%?", strL "A"] = strL "%?A" ∧
      Format (strL "%?%?") [strL "X", strL "Y"] = strL "XY" := by
  obtain ⟨h1, h2⟩ := C9_substitution_sites_template_only (strL "%?%?")
    [strL "%?", strL "A"] [strL "X", strL "Y"] rfl
  exact ⟨h1.trans (by decide), h2.trans (by decide)⟩

/-- C10: a `"%?"` occurrence at the very start of the template is always a
substitution site (the look-back needs `pos > 0`), and the escape prefix
cannot itself be escaped: `"%%%?"` renders as `"%%?"` — the occurrence is
still treated as escaped, only one `'%'` is consumed, and no argument is
consumed. -/
theorem C10_escape_detection (rest : List Char) (ps : List (List Char)) :
    Format ('%' :: '?' :: rest) ps = ps.headD ['?'] ++ Format rest ps.tail ∧
    Format ('%' :: '%' :: '%' :: '?' :: rest) ps =
      '%' :: '%' :: '?' :: Format rest ps := by
  constructor
  · simp only [Format_eq_specSubst]
    rcases rest with _ | ⟨e, rest'⟩ <;> rcases ps with _ | ⟨p, ps'⟩ <;>
      simp [specSubst]
  · simp only [Format_eq_specSubst]
    simp [specSubst]

example : specSubst (strL "Num: %?, s: %?") [strL "10.5", strL "xyz"] =
    strL "Num: 10.5, s: xyz" := by decide
example : specSubst (strL "100%%?") [] = strL "100%?" := by decide
example : specSubst (strL "%?, %?, %?") [strL "1"] = strL "1, ?, ?" := by decide
example : specSubst (strL "%?") [strL "1", strL "2", strL "3"] = strL "1" := by
  decide
example : specSubst (strL "%%%?") [strL "1"] = strL "%%?" := by decide
example : countHoles (strL "%?, %?, %?") = 3 := by decide
example : buildResult (strL "a%?b%?c") [strL "X", strL "Y"] = strL "aXbYc" := by
  decide

end FormatUtil
